import Mathlib

/-!
Verification of the comment-failure-action runner (`src/runner.ts`).

Strings are embedded as `List Char` (`str` converts a literal).  The
runner's remote API surface (octokit) is embedded as a `World` of API
responses together with a trace of `RemoteCall`s that `run` emits; the
pure string algorithms (`split_body`, `replace_or_append_section`,
`generate_body`, `generate_section`, …) are translated directly from the
source.
-/

/-- Character-list view of a string literal. -/
def str (s : String) : List Char := s.data

/-- JavaScript `String.prototype.includes`: `includesSub n h` is true iff
`n` occurs as a contiguous substring of `h`. -/
def includesSub (n : List Char) : List Char → Bool
  | [] => n.isPrefixOf []
  | c :: t => n.isPrefixOf (c :: t) || includesSub n t

/-- The fixed separator `this.separator = '\n<!-- SEPARATOR -->\n'`. -/
def sepL : List Char := str "\n<!-- SEPARATOR -->\n"

/-- The separator without its trailing newline (used in the round-trip
analysis of `split_body`). -/
def sepHead : List Char := str "\n<!-- SEPARATOR -->"

/-- JavaScript `body.split(this.separator)`: leftmost, non-overlapping
occurrences of `sepL` split the text; `acc` holds the (reversed) current
piece.  `fuel` makes the recursion structural (it only needs to dominate
the text's length, see `splitSepFuel_congr`). -/
def splitSepFuel : Nat → List Char → List Char → List (List Char)
  | _, acc, [] => [acc.reverse]
  | 0, acc, s => [acc.reverse ++ s]
  | fuel + 1, acc, c :: rest =>
    if sepL.isPrefixOf (c :: rest) then
      acc.reverse :: splitSepFuel fuel [] ((c :: rest).drop sepL.length)
    else
      splitSepFuel fuel (c :: acc) rest

/-- `body.split(separator)` on the whole body. -/
def splitSep (body : List Char) : List (List Char) :=
  splitSepFuel body.length [] body

/-- JavaScript `Array.prototype.join(sep)` on a list of strings. -/
def joinWith (sep : List Char) : List (List Char) → List Char
  | [] => []
  | [x] => x
  | x :: y :: rest => x ++ sep ++ joinWith sep (y :: rest)

/-- The per-invocation environment (`Env` interface in the source).
`head_branch` is `Option` because the TypeScript value may be
`undefined`/`null` (checked by `is_pull_request`). -/
structure Env where
  api_token : List Char
  check_suite_id : Nat
  head_branch : Option (List Char)
  head_commit : List Char
  workflow : List Char
  owner : List Char
  repo : List Char
deriving DecidableEq

/-- `this.signature` built in the constructor. -/
def signature (env : Env) : List Char :=
  str "GitHub Action status on " ++ env.head_commit ++
    str " generated by comment-failure-action"

/-- `this.tag` built in the constructor. -/
def tag (env : Env) : List Char :=
  str "<!-- WORKFLOW:" ++ env.workflow ++ str " -->"

/-- A pull request, with the only field the runner reads. -/
structure PullRequest where
  number : Nat
deriving DecidableEq

/-- An issue comment; `body` may be `undefined` in the API payload, hence
`Option`. -/
structure IssueComment where
  id : Nat
  body : Option (List Char)
deriving DecidableEq

/-- The `output` object of a check run. -/
structure CheckRunOutput where
  title : List Char
deriving DecidableEq

/-- A completed check run as returned by the checks API (fields the
runner reads). -/
structure CheckRun where
  output : CheckRunOutput
  html_url : List Char
  conclusion : List Char
deriving DecidableEq

/-- The remote API's responses for one invocation: the open pull requests
for the head branch, the completed check runs of the triggering suite,
and each issue's comment list. -/
structure World where
  pulls : List PullRequest
  check_runs : List CheckRun
  comments : Nat → List IssueComment

/-- One remote (octokit) call issued by the runner. -/
inductive RemoteCall where
  | listPullRequests (owner repo head : List Char)
  | listCheckRuns (owner repo : List Char) (check_suite_id : Nat)
  | listComments (owner repo : List Char) (issue_number : Nat)
  | updateComment (owner repo : List Char) (comment_id : Nat) (body : List Char)
  | createComment (owner repo : List Char) (issue_number : Nat) (body : List Char)
  | addLabels (owner repo : List Char) (issue_number : Nat) (labels : List Char)
deriving DecidableEq

/-- A call that mutates remote state (update/create/label), as opposed to
the read-only list calls. -/
def isMutation : RemoteCall → Bool
  | .updateComment _ _ _ _ => true
  | .createComment _ _ _ _ => true
  | .addLabels _ _ _ _ => true
  | _ => false

/-- The body, if any, carried by a remote call. -/
def callBody : RemoteCall → Option (List Char)
  | .updateComment _ _ _ b => some b
  | .createComment _ _ _ b => some b
  | _ => none

/-- `is_pull_request()`: the branch is neither undefined, null nor `''`. -/
def is_pull_request (env : Env) : Bool :=
  match env.head_branch with
  | none => false
  | some b => !b.isEmpty

/-- `generate_section(failed_runs)`. -/
def generate_section (env : Env) (failed_runs : List CheckRun) : List Char :=
  let strings : List (List Char) :=
    [tag env, str "### " ++ env.workflow] ++
      (if failed_runs.length = 0 then
        [str "No jobs failed :+1:"]
      else
        [str "| job | url |", str "|-----|-----|"] ++
          failed_runs.map (fun failed_run =>
            str "| " ++ failed_run.output.title ++ str " | " ++
              failed_run.html_url ++ str " |"))
  joinWith (str "\n") strings

/-- `find_failed_check_runs()`: the completed runs of the suite, filtered
to conclusions other than success/neutral. -/
def find_failed_check_runs (w : World) : List CheckRun :=
  w.check_runs.filter (fun check_run =>
    check_run.conclusion != str "success" && check_run.conclusion != str "neutral")

/-- The predicate of `find_comment`'s `comments.find(...)`:
`c.body !== undefined && c.body.includes(this.signature)`. -/
def comment_matches (env : Env) (c : IssueComment) : Bool :=
  match c.body with
  | none => false
  | some b => includesSub (signature env) b

/-- `find_comment(pr)`. -/
def find_comment (env : Env) (w : World) (pr : PullRequest) : Option IssueComment :=
  (w.comments pr.number).find? (comment_matches env)

/-- `split_body(body)`. -/
def split_body (env : Env) (body : List Char) : List (List Char) :=
  (splitSep body).filter (fun s => !includesSub (signature env) s)

/-- `replace_or_append_section(section, old_sections)`.  The mutable
`replaced` flag of the source is the `any` of the tag test over
`old_sections`. -/
def replace_or_append_section (env : Env) (sectionText : List Char)
    (old_sections : List (List Char)) : List (List Char) :=
  let replaced := old_sections.any (fun old_section => includesSub (tag env) old_section)
  let new_sections := old_sections.map (fun old_section =>
    if includesSub (tag env) old_section then sectionText else old_section)
  if replaced then new_sections else new_sections ++ [sectionText]

/-- `generate_body(sections)`. -/
def generate_body (env : Env) (sections : List (List Char)) : List Char :=
  joinWith sepL ([signature env] ++ sections)

/-- `update_comment(comment, section)`: the single remote call it issues,
with the reconciled body. -/
def update_comment (env : Env) (comment : IssueComment) (sectionText : List Char) :
    RemoteCall :=
  RemoteCall.updateComment env.owner env.repo comment.id
    (generate_body env
      (replace_or_append_section env sectionText (split_body env (comment.body.getD []))))

/-- `create_comment(pr, section)`: the single remote call it issues. -/
def create_comment (env : Env) (pr : PullRequest) (sectionText : List Char) :
    RemoteCall :=
  RemoteCall.createComment env.owner env.repo pr.number
    (generate_body env [sectionText])

/-- `add_label(pr)`: the single remote call it issues. -/
def add_label (env : Env) (pr : PullRequest) : RemoteCall :=
  RemoteCall.addLabels env.owner env.repo pr.number (str "waiting-response")

/-- The body of `run`'s `for (const pr of prs)` loop: the remote calls it
issues for one pull request (listing the comments, then updating /
creating / labelling as the branches dictate). -/
def process_pr (env : Env) (w : World) (failed_runs : List CheckRun)
    (sectionText : List Char) (pr : PullRequest) : List RemoteCall :=
  RemoteCall.listComments env.owner env.repo pr.number ::
    (match find_comment env w pr with
     | some comment => [update_comment env comment sectionText, add_label env pr]
     | none =>
       if 0 < failed_runs.length then
         [create_comment env pr sectionText, add_label env pr]
       else [])

/-- The `for` loop of `run` over the discovered pull requests. -/
def run_loop (env : Env) (w : World) (failed_runs : List CheckRun)
    (sectionText : List Char) : List PullRequest → List RemoteCall
  | [] => []
  | pr :: rest =>
    process_pr env w failed_runs sectionText pr ++
      run_loop env w failed_runs sectionText rest

/-- `run()`: the full trace of remote calls of one invocation. -/
def run (env : Env) (w : World) : List RemoteCall :=
  if is_pull_request env then
    RemoteCall.listPullRequests env.owner env.repo
        (env.owner ++ str ":" ++ env.head_branch.getD []) ::
      (if w.pulls.length = 0 then []
       else
         RemoteCall.listCheckRuns env.owner env.repo env.check_suite_id ::
           (let failed_runs := find_failed_check_runs w
            let sectionText := generate_section env failed_runs
            run_loop env w failed_runs sectionText w.pulls))
  else []

/-- `includesSub` decides substring (infix) containment, like JavaScript
`includes`. -/
lemma includesSub_iff (n h : List Char) : includesSub n h = true ↔ n <:+: h := by
  induction h with
  | nil =>
    simp [includesSub, List.isPrefixOf_iff_prefix]
  | cons c t ih =>
    rw [includesSub, List.infix_cons_iff, Bool.or_eq_true,
      List.isPrefixOf_iff_prefix, ih]

lemma splitSepFuel_nil (n : Nat) (acc : List Char) :
    splitSepFuel n acc [] = [acc.reverse] := by
  cases n <;> rfl

lemma splitSepFuel_cons (fuel : Nat) (acc : List Char) (c : Char) (rest : List Char) :
    splitSepFuel (fuel + 1) acc (c :: rest) =
      if sepL.isPrefixOf (c :: rest) then
        acc.reverse :: splitSepFuel fuel [] ((c :: rest).drop sepL.length)
      else
        splitSepFuel fuel (c :: acc) rest := rfl

/-- The split result does not depend on the fuel, once the fuel dominates
the text's length. -/
lemma splitSepFuel_congr :
    ∀ (n m : Nat) (acc s : List Char), s.length ≤ n → s.length ≤ m →
      splitSepFuel n acc s = splitSepFuel m acc s := by
  intro n
  induction n with
  | zero =>
    intro m acc s hn _
    have hs : s = [] := List.length_eq_zero.mp (Nat.le_zero.mp hn)
    subst hs
    rw [splitSepFuel_nil, splitSepFuel_nil]
  | succ n ih =>
    intro m acc s hn hm
    cases s with
    | nil => rw [splitSepFuel_nil, splitSepFuel_nil]
    | cons c rest =>
      cases m with
      | zero => simp at hm
      | succ m =>
        have hsep : sepL.length = 20 := rfl
        rw [splitSepFuel_cons, splitSepFuel_cons]
        by_cases hpre : sepL.isPrefixOf (c :: rest) = true
        · rw [if_pos hpre, if_pos hpre]
          have hlen : ((c :: rest).drop sepL.length).length ≤ n := by
            simp only [List.length_drop, List.length_cons] at *
            omega
          have hlen' : ((c :: rest).drop sepL.length).length ≤ m := by
            simp only [List.length_drop, List.length_cons] at *
            omega
          rw [ih m [] _ hlen hlen']
        · rw [if_neg hpre, if_neg hpre]
          have hlen : rest.length ≤ n := by
            simp only [List.length_cons] at hn
            omega
          have hlen' : rest.length ≤ m := by
            simp only [List.length_cons] at hm
            omega
          exact ih m (c :: acc) rest hlen hlen'

/-- Key straddling analysis: the separator cannot begin strictly inside a
piece that neither contains the separator nor ends with the separator's
newline-less prefix `sepHead`. -/
lemma sepL_not_prefix_straddle (x r : List Char) (hne : x ≠ [])
    (hsep : ¬ sepL <:+: x) (hsuf : ¬ sepHead <:+ x) :
    sepL.isPrefixOf (x ++ (sepL ++ r)) = false := by
  by_contra hcon
  rw [Bool.not_eq_false, List.isPrefixOf_iff_prefix] at hcon
  have hsepLen : sepL.length = 20 := rfl
  have hheadLen : sepHead.length = 19 := rfl
  have hxlen : 1 ≤ x.length := by
    cases x with
    | nil => exact absurd rfl hne
    | cons a t => simp
  rcases Nat.lt_or_ge x.length 19 with hlt | hge
  · -- 1 ≤ |x| ≤ 18: the char at index |x| would have to be both a
    -- newline (start of the appended separator) and an inner separator
    -- char.
    obtain ⟨t, ht⟩ := hcon
    have e1 : (sepL ++ t).getD x.length ' ' = sepL.getD x.length ' ' :=
      List.getD_append _ _ _ _ (by omega)
    have e2 : (x ++ (sepL ++ r)).getD x.length ' ' = (sepL ++ r).getD 0 ' ' := by
      rw [List.getD_append_right x (sepL ++ r) ' ' x.length (Nat.le_refl _)]
      simp
    have e3 : (sepL ++ r).getD 0 ' ' = sepL.getD 0 ' ' :=
      List.getD_append _ _ _ _ (by omega)
    have hn0 : sepL.getD 0 ' ' = '\n' := by decide
    have hmid : ∀ k, k ≤ 18 → 1 ≤ k → sepL.getD k ' ' ≠ '\n' := by decide
    have : sepL.getD x.length ' ' = '\n' := by
      rw [← e1, ht, e2, e3, hn0]
    exact hmid x.length (by omega) hxlen this
  · rcases Nat.lt_or_ge x.length 20 with hlt20 | hge20
    · -- |x| = 19: x would be exactly sepHead, hence end with it.
      have hx19 : x.length = 19 := by omega
      have hh : sepHead <+: sepL := by decide
      have hpre : sepHead <+: x ++ (sepL ++ r) := hh.trans hcon
      have htake : sepHead = (x ++ (sepL ++ r)).take sepHead.length :=
        List.prefix_iff_eq_take.mp hpre
      rw [List.take_append_eq_append_take] at htake
      have hz : sepHead.length - x.length = 0 := by omega
      rw [hz] at htake
      simp only [List.take_zero, List.append_nil] at htake
      have hxeq : x.take sepHead.length = x :=
        List.take_of_length_le (by omega)
      rw [hxeq] at htake
      exact hsuf (htake ▸ List.suffix_refl x)
    · -- |x| ≥ 20: the whole separator sits inside x.
      have htake : sepL = (x ++ (sepL ++ r)).take sepL.length :=
        List.prefix_iff_eq_take.mp hcon
      rw [List.take_append_eq_append_take] at htake
      have hz : sepL.length - x.length = 0 := by omega
      rw [hz] at htake
      simp only [List.take_zero, List.append_nil] at htake
      have : sepL <+: x := htake ▸ List.take_prefix sepL.length x
      exact hsep this.isInfix

/-- Scanning a piece that contains no separator consumes it whole. -/
lemma splitSepFuel_no_sep :
    ∀ (n : Nat) (s acc : List Char), s.length ≤ n → ¬ sepL <:+: s →
      splitSepFuel n acc s = [acc.reverse ++ s] := by
  intro n
  induction n with
  | zero =>
    intro s acc hn _
    have hs : s = [] := List.length_eq_zero.mp (Nat.le_zero.mp hn)
    subst hs
    simp [splitSepFuel_nil]
  | succ n ih =>
    intro s acc hn hsep
    cases s with
    | nil => simp [splitSepFuel_nil]
    | cons c rest =>
      rw [splitSepFuel_cons]
      have hpre : sepL.isPrefixOf (c :: rest) = false := by
        by_contra hcon
        rw [Bool.not_eq_false, List.isPrefixOf_iff_prefix] at hcon
        exact hsep hcon.isInfix
      rw [if_neg (by simp [hpre])]
      have hrest : ¬ sepL <:+: rest := fun h => hsep (List.infix_cons h)
      rw [ih rest (c :: acc) (by simp at hn; omega) hrest]
      simp

/-- Scanning `x ++ sepL ++ r` where `x` is a clean piece: the scan emits
`x` and recurses after the separator. -/
lemma splitSepFuel_boundary :
    ∀ (x r acc : List Char) (n : Nat),
      x.length + sepL.length + r.length ≤ n →
      ¬ sepL <:+: x → ¬ sepHead <:+ x →
      splitSepFuel n acc (x ++ (sepL ++ r)) =
        (acc.reverse ++ x) :: splitSepFuel r.length [] r := by
  intro x
  induction x with
  | nil =>
    intro r acc n hn hsep hsuf
    have hsepLen : sepL.length = 20 := rfl
    have hn' : 20 + r.length ≤ n := by
      simp only [List.length_nil, hsepLen, Nat.zero_add] at hn
      exact hn
    cases n with
    | zero => omega
    | succ n =>
      have hcons : sepL ++ r = '\n' :: (str "<!-- SEPARATOR -->\n" ++ r) := rfl
      rw [List.nil_append, hcons, splitSepFuel_cons]
      have hpre : sepL.isPrefixOf ('\n' :: (str "<!-- SEPARATOR -->\n" ++ r)) = true := by
        rw [← hcons, List.isPrefixOf_iff_prefix]
        exact List.prefix_append sepL r
      rw [if_pos hpre]
      have hdrop : ('\n' :: (str "<!-- SEPARATOR -->\n" ++ r)).drop sepL.length = r := by
        rw [← hcons, List.drop_left]
      rw [hdrop]
      rw [splitSepFuel_congr n r.length [] r (by omega) (Nat.le_refl _)]
      simp
  | cons c x' ih =>
    intro r acc n hn hsep hsuf
    cases n with
    | zero =>
      rw [show sepL.length = 20 from rfl] at hn
      simp only [List.length_cons] at hn
      omega
    | succ n =>
      rw [List.cons_append, splitSepFuel_cons]
      have hpre : sepL.isPrefixOf ((c :: x') ++ (sepL ++ r)) = false :=
        sepL_not_prefix_straddle (c :: x') r (by simp) hsep hsuf
      rw [List.cons_append] at hpre
      rw [if_neg (by simp [hpre])]
      have hsep' : ¬ sepL <:+: x' := fun h => hsep (List.infix_cons h)
      have hsuf' : ¬ sepHead <:+ x' := fun h => hsuf (h.trans (List.suffix_cons c x'))
      rw [ih r (c :: acc) n (by simp at hn ⊢; omega) hsep' hsuf']
      simp

lemma joinWith_cons_cons (sep x y : List Char) (rest : List (List Char)) :
    joinWith sep (x :: y :: rest) = x ++ sep ++ joinWith sep (y :: rest) := rfl

/-- Splitting a join on the separator recovers the pieces as long as no
piece contains the separator or ends with its newline-less prefix. -/
lemma splitSep_joinWith :
    ∀ pieces : List (List Char),
      (∀ p ∈ pieces, ¬ sepL <:+: p ∧ ¬ sepHead <:+ p) → pieces ≠ [] →
      splitSep (joinWith sepL pieces) = pieces := by
  intro pieces
  induction pieces with
  | nil => intro _ hne; exact absurd rfl hne
  | cons x rest ih =>
    intro hp _
    cases rest with
    | nil =>
      show splitSepFuel (joinWith sepL [x]).length [] (joinWith sepL [x]) = [x]
      have hx := hp x (by simp)
      rw [show joinWith sepL [x] = x from rfl]
      rw [splitSepFuel_no_sep x.length x [] (Nat.le_refl _) hx.1]
      simp
    | cons y rest' =>
      show splitSepFuel _ [] (joinWith sepL (x :: y :: rest')) = x :: y :: rest'
      rw [joinWith_cons_cons, List.append_assoc]
      have hx := hp x (by simp)
      rw [splitSepFuel_boundary x (joinWith sepL (y :: rest')) []
        (x ++ (sepL ++ joinWith sepL (y :: rest'))).length
        (by simp only [List.length_append]; omega) hx.1 hx.2]
      have := ih (fun p hmem => hp p (List.mem_cons_of_mem x hmem)) (by simp)
      rw [show splitSepFuel (joinWith sepL (y :: rest')).length [] (joinWith sepL (y :: rest')) =
            splitSep (joinWith sepL (y :: rest')) from rfl, this]
      simp

/-- A concrete environment for counterexamples and witnesses. -/
def env0 : Env :=
  { api_token := str "t", check_suite_id := 1, head_branch := some (str "b"),
    head_commit := str "c", workflow := str "w", owner := str "o", repo := str "r" }

set_option maxRecDepth 40000 in
/-- C2 (counterexample): taking the claim's hypothesis literally — no
element contains the separator token or the Signature — the round trip
fails: an element may end with `\n<!-- SEPARATOR -->`, which together
with the appended separator's leading newline forms a separator
occurrence that `split` consumes across the boundary. -/
theorem C2_counterexample :
    (∀ s ∈ [str "a\n<!-- SEPARATOR -->", str "b"],
        ¬ sepL <:+: s ∧ ¬ signature env0 <:+: s) ∧
      split_body env0 (generate_body env0 [str "a\n<!-- SEPARATOR -->", str "b"]) ≠
        [str "a\n<!-- SEPARATOR -->", str "b"] := by
  constructor
  · decide
  · decide

/-- No newline occurs in the fixed parts of the signature, so a
newline-free commit string gives a newline-free signature. -/
lemma signature_no_newline (env : Env) (hnl : '\n' ∉ env.head_commit) :
    '\n' ∉ signature env := by
  intro hmem
  unfold signature at hmem
  rw [List.append_assoc, List.mem_append, List.mem_append] at hmem
  rcases hmem with h | h | h
  · exact absurd h (by decide)
  · exact hnl h
  · exact absurd h (by decide)

/-- C2 (amended): the round trip `split_body ∘ generate_body` is the
identity on section lists provided (a) the commit hash — hence the
signature — contains no newline and (b) no section contains the
separator, ends with the separator's newline-less prefix
`\n<!-- SEPARATOR -->`, or contains the signature. -/
theorem C2_roundtrip_amended (env : Env) (sections : List (List Char))
    (hnl : '\n' ∉ env.head_commit)
    (hs : ∀ s ∈ sections, ¬ sepL <:+: s ∧ ¬ sepHead <:+ s ∧ ¬ signature env <:+: s) :
    split_body env (generate_body env sections) = sections := by
  have hsig_nl : '\n' ∉ signature env := signature_no_newline env hnl
  have hsig_sep : ¬ sepL <:+: signature env := by
    intro h
    exact hsig_nl (h.subset (by decide))
  have hsig_head : ¬ sepHead <:+ signature env := by
    intro h
    exact hsig_nl (h.isInfix.subset (by decide))
  have hpieces : ∀ p ∈ signature env :: sections, ¬ sepL <:+: p ∧ ¬ sepHead <:+ p := by
    intro p hp
    rcases List.mem_cons.mp hp with h | h
    · exact h ▸ ⟨hsig_sep, hsig_head⟩
    · exact ⟨(hs p h).1, (hs p h).2.1⟩
  unfold split_body generate_body
  rw [List.singleton_append,
    splitSep_joinWith (signature env :: sections) hpieces (by simp)]
  rw [List.filter_cons]
  have hself : includesSub (signature env) (signature env) = true :=
    (includesSub_iff _ _).mpr (List.infix_refl _)
  rw [if_neg (by simp [hself])]
  rw [List.filter_eq_self.mpr]
  intro s hmem
  have := (hs s hmem).2.2
  simp only [Bool.not_eq_true']
  rw [← Bool.not_eq_true, includesSub_iff]
  exact this

/-- C2 (witness): a concrete instance of the amended round trip. -/
theorem C2_roundtrip_witness :
    ('\n' ∉ env0.head_commit ∧
      (∀ s ∈ [str "hello", str "world"],
        ¬ sepL <:+: s ∧ ¬ sepHead <:+ s ∧ ¬ signature env0 <:+: s)) ∧
      split_body env0 (generate_body env0 [str "hello", str "world"]) =
        [str "hello", str "world"] :=
  ⟨⟨by decide, by decide⟩,
    C2_roundtrip_amended env0 [str "hello", str "world"] (by decide) (by decide)⟩

/-- Concrete sections carrying the tag of `env0`'s workflow (`w`), a
foreign tag (`y`), and a fresh replacement section, used in
counterexamples and witnesses. -/
def secA : List Char := str "<!-- WORKFLOW:w -->A"

def secB : List Char := str "<!-- WORKFLOW:y -->B"

def secC : List Char := str "<!-- WORKFLOW:w -->C"

def secS : List Char := str "<!-- WORKFLOW:w -->S"

/-- C1 (counterexample): with `old = [A(tag=X), B(tag=Y), C(tag=X)]` and a
new section tagged `X`, the code replaces every tag-carrying element (its
`map` has no first-only cut-off), so the result is `[s, B, s]`, not the
claimed `[s, B, C]`. -/
theorem C1_counterexample :
    (includesSub (tag env0) secA = true ∧ includesSub (tag env0) secB = false ∧
      includesSub (tag env0) secC = true ∧ includesSub (tag env0) secS = true) ∧
    replace_or_append_section env0 secS [secA, secB, secC] ≠ [secS, secB, secC] := by
  constructor
  · decide
  · decide

/-- C1 (amended): when at least one old element carries the invocation's
tag, `replace_or_append_section` substitutes the new section for every
tag-carrying element — the first and every duplicate — while elements
without the tag keep their positions; in the `[A, B, C]` shape of the
claim the result is `[s, B, s]`. -/
theorem C1_replace_all_tagged (env : Env) (s A B C : List Char)
    (hA : includesSub (tag env) A = true)
    (hB : includesSub (tag env) B = false)
    (hC : includesSub (tag env) C = true) :
    replace_or_append_section env s [A, B, C] = [s, B, s] ∧
    ∀ old : List (List Char),
      old.any (fun old_section => includesSub (tag env) old_section) = true →
      replace_or_append_section env s old =
        old.map (fun old_section =>
          if includesSub (tag env) old_section then s else old_section) := by
  constructor
  · unfold replace_or_append_section
    simp [hA, hB, hC]
  · intro old hany
    unfold replace_or_append_section
    simp only [hany, if_true]

/-- C1 (witness): the amended claim at the concrete sections. -/
theorem C1_witness :
    (includesSub (tag env0) secA = true ∧ includesSub (tag env0) secB = false ∧
      includesSub (tag env0) secC = true) ∧
    replace_or_append_section env0 secS [secA, secB, secC] = [secS, secB, secS] :=
  ⟨⟨by decide, by decide, by decide⟩,
    (C1_replace_all_tagged env0 secS secA secB secC (by decide) (by decide)
      (by decide)).1⟩

/-- C3 (counterexample): reconciliation is not idempotent for a new
section that does not carry the ownership tag: the first pass appends it,
the second pass appends it again. -/
theorem C3_counterexample :
    replace_or_append_section env0 (str "S")
        (replace_or_append_section env0 (str "S") []) ≠
      replace_or_append_section env0 (str "S") [] := by
  decide

/-- Substituting a tag-carrying section for a tagged element does not
change whether an element carries the tag. -/
lemma replace_keeps_tag (env : Env) (s : List Char)
    (h : includesSub (tag env) s = true) (o : List Char) :
    includesSub (tag env) (if includesSub (tag env) o then s else o) =
      includesSub (tag env) o := by
  by_cases ho : includesSub (tag env) o = true
  · simp [ho, h]
  · simp [ho]

/-- The per-element substitution of `replace_or_append_section` is
pointwise idempotent when the new section carries the tag. -/
lemma replace_pointwise_idem (env : Env) (s : List Char)
    (h : includesSub (tag env) s = true) (o : List Char) :
    (if includesSub (tag env) (if includesSub (tag env) o then s else o)
      then s else (if includesSub (tag env) o then s else o)) =
      (if includesSub (tag env) o then s else o) := by
  by_cases ho : includesSub (tag env) o = true
  · simp [ho, h]
  · simp [ho]

/-- Local `any` congruence used below. -/
lemma any_congr_local {α : Type} (p q : α → Bool) :
    ∀ l : List α, (∀ a ∈ l, p a = q a) → l.any p = l.any q := by
  intro l
  induction l with
  | nil => intro _; rfl
  | cons a t ih =>
    intro h
    simp only [List.any_cons]
    rw [h a (by simp), ih (fun b hb => h b (List.mem_cons_of_mem a hb))]

/-- C3 (amended): reconciliation is idempotent whenever the new section
carries the invocation's ownership tag — which every section produced by
`generate_section` does, since it begins with the tag line. -/
theorem C3_idempotent_amended (env : Env) (s : List Char) (old : List (List Char))
    (h : includesSub (tag env) s = true) :
    replace_or_append_section env s (replace_or_append_section env s old) =
      replace_or_append_section env s old := by
  by_cases hany : old.any (fun old_section => includesSub (tag env) old_section) = true
  · -- the first pass replaced at least one element
    have hres : replace_or_append_section env s old =
        old.map (fun old_section =>
          if includesSub (tag env) old_section then s else old_section) := by
      unfold replace_or_append_section
      simp only [hany, if_true]
    rw [hres]
    have hany2 : (old.map (fun old_section =>
        if includesSub (tag env) old_section then s else old_section)).any
        (fun old_section => includesSub (tag env) old_section) = true := by
      rw [List.any_map]
      simp only [Function.comp_def]
      exact (any_congr_local _ _ old (fun o _ => replace_keeps_tag env s h o)).trans hany
    unfold replace_or_append_section
    simp only [hany2, if_true]
    rw [List.map_map]
    exact List.map_congr_left (fun o _ => replace_pointwise_idem env s h o)
  · -- the first pass appended the new section
    have hb : old.any (fun old_section => includesSub (tag env) old_section) = false := by
      cases hx : old.any (fun old_section => includesSub (tag env) old_section)
      · rfl
      · exact absurd hx hany
    have hall : ∀ o ∈ old, includesSub (tag env) o = false := by
      intro o ho
      have := List.any_eq_false.mp hb o ho
      simp only [Bool.not_eq_true] at this
      exact this
    have hmap : old.map (fun old_section =>
        if includesSub (tag env) old_section then s else old_section) = old := by
      have : ∀ o ∈ old,
          (if includesSub (tag env) o then s else o) = id o := by
        intro o ho
        simp [hall o ho]
      rw [List.map_congr_left this, List.map_id]
    have hres : replace_or_append_section env s old = old ++ [s] := by
      unfold replace_or_append_section
      simp only [hb, Bool.false_eq_true, if_false, hmap]
    rw [hres]
    have hany2 : (old ++ [s]).any
        (fun old_section => includesSub (tag env) old_section) = true := by
      rw [List.any_append]
      simp [h]
    unfold replace_or_append_section
    simp only [hany2, if_true]
    rw [List.map_append, hmap]
    simp [h]

/-- C3 (witness): idempotence at a concrete tagged section and old list. -/
theorem C3_witness :
    includesSub (tag env0) secS = true ∧
    replace_or_append_section env0 secS
        (replace_or_append_section env0 secS [secA, secB]) =
      replace_or_append_section env0 secS [secA, secB] :=
  ⟨by decide, C3_idempotent_amended env0 secS [secA, secB] (by decide)⟩

/-- C6: with an absent, null or empty head branch, `run` terminates as an
informational no-op issuing zero remote calls of any kind. -/
theorem C6_applicability_gate (env : Env) (w : World)
    (h : env.head_branch = none ∨ env.head_branch = some []) :
    run env w = [] := by
  have hgate : is_pull_request env = false := by
    rcases h with h | h <;> simp [is_pull_request, h]
  unfold run
  rw [hgate]
  simp

/-- An environment whose branch is absent (`undefined` in the action's
payload). -/
def envNone : Env := { env0 with head_branch := none }

/-- A comment carrying `env0`'s signature. -/
def comment0 : IssueComment := { id := 5, body := some (signature env0) }

/-- A world with one open pull request, no check runs and one signed
comment. -/
def w0 : World :=
  { pulls := [{ number := 1 }], check_runs := [],
    comments := fun _ => [comment0] }

/-- C6 (witness): the gate at a concrete branch-less environment and a
world that does have an open pull request. -/
theorem C6_witness :
    (envNone.head_branch = none ∨ envNone.head_branch = some []) ∧
      run envNone w0 = [] :=
  ⟨Or.inl rfl, C6_applicability_gate envNone w0 (Or.inl rfl)⟩

/-- C7: `find_failed_check_runs` keeps exactly the completed runs whose
conclusion is neither success nor neutral, and preserves the API's
order (it is a sublist of the response). -/
theorem C7_failed_filter (w : World) :
    (∀ r : CheckRun, r ∈ find_failed_check_runs w ↔
      (r ∈ w.check_runs ∧ r.conclusion ≠ str "success" ∧
        r.conclusion ≠ str "neutral")) ∧
    List.Sublist (find_failed_check_runs w) w.check_runs := by
  constructor
  · intro r
    unfold find_failed_check_runs
    rw [List.mem_filter]
    simp [Bool.and_eq_true, bne_iff_ne, and_assoc]
  · exact List.filter_sublist _

def run_success : CheckRun :=
  { output := { title := str "ok" }, html_url := str "http://s",
    conclusion := str "success" }

def run_fail : CheckRun :=
  { output := { title := str "lint" }, html_url := str "http://x",
    conclusion := str "failure" }

def run_neutral : CheckRun :=
  { output := { title := str "skip" }, html_url := str "http://n",
    conclusion := str "neutral" }

/-- A world whose check suite has a success, a failure and a neutral
run. -/
def w1 : World :=
  { pulls := [{ number := 1 }], check_runs := [run_success, run_fail, run_neutral],
    comments := fun _ => [] }

/-- C7 (witness): the failing run is kept by the filter at a concrete
world. -/
theorem C7_witness : run_fail ∈ find_failed_check_runs w1 :=
  ((C7_failed_filter w1).1 run_fail).mpr ⟨by decide, by decide, by decide⟩

/-- C5: for a pull request with no signature-bearing comment and an empty
failed-run list, the runner's per-PR handler emits only the read of the
comment list — no create, no update, no label, no mutation of any kind. -/
theorem C5_no_mutation_when_clean (env : Env) (w : World) (pr : PullRequest)
    (sectionText : List Char)
    (hnone : find_comment env w pr = none)
    (hempty : find_failed_check_runs w = []) :
    process_pr env w (find_failed_check_runs w) sectionText pr =
      [RemoteCall.listComments env.owner env.repo pr.number] ∧
    ∀ call ∈ process_pr env w (find_failed_check_runs w) sectionText pr,
      isMutation call = false := by
  have h1 : process_pr env w (find_failed_check_runs w) sectionText pr =
      [RemoteCall.listComments env.owner env.repo pr.number] := by
    unfold process_pr
    rw [hnone, hempty]
    simp
  refine ⟨h1, ?_⟩
  rw [h1]
  intro call hc
  rw [List.mem_singleton] at hc
  subst hc
  rfl

/-- A world with one open pull request, a successful check run only, and
no comments at all. -/
def w2 : World :=
  { pulls := [{ number := 1 }], check_runs := [run_success],
    comments := fun _ => [] }

/-- C5 (witness): the clean-PR no-mutation case at a concrete world. -/
theorem C5_witness :
    (find_comment env0 w2 { number := 1 } = none ∧
      find_failed_check_runs w2 = []) ∧
    process_pr env0 w2 (find_failed_check_runs w2) (generate_section env0 [])
        { number := 1 } =
      [RemoteCall.listComments env0.owner env0.repo 1] :=
  ⟨⟨by decide, by decide⟩,
    (C5_no_mutation_when_clean env0 w2 { number := 1 } (generate_section env0 [])
      (by decide) (by decide)).1⟩

/-- An infix of the loop's trace for a later pull request stays an infix
after prepending an earlier pull request's calls. -/
lemma infix_append_left_local {α : Type} (l l₂ : List α) (l₁ : List α)
    (h : l <:+: l₂) : l <:+: l₁ ++ l₂ := by
  obtain ⟨s, t, rfl⟩ := h
  exact ⟨l₁ ++ s, t, by simp⟩

/-- The calls of one discovered pull request appear contiguously in the
loop's trace. -/
lemma process_pr_infix_run_loop (env : Env) (w : World) (failed_runs : List CheckRun)
    (sectionText : List Char) :
    ∀ (prs : List PullRequest) (pr : PullRequest), pr ∈ prs →
      process_pr env w failed_runs sectionText pr <:+:
        run_loop env w failed_runs sectionText prs := by
  intro prs
  induction prs with
  | nil => intro pr h; simp at h
  | cons q rest ih =>
    intro pr h
    rcases List.mem_cons.mp h with rfl | h
    · exact (List.prefix_append _ _).isInfix
    · exact infix_append_left_local _ _ _ (ih pr h)

/-- C4: whenever a signed comment is found for a discovered pull request,
`run`'s trace contains — consecutively — the update of that exact comment
with the reconciled body, followed by adding the `waiting-response`
label; no hypothesis on the failed-run list is needed, so this holds even
with zero failures. -/
theorem C4_update_then_label (env : Env) (w : World) (pr : PullRequest)
    (c : IssueComment)
    (hgate : is_pull_request env = true)
    (hpr : pr ∈ w.pulls)
    (hfound : find_comment env w pr = some c) :
    [update_comment env c (generate_section env (find_failed_check_runs w)),
      add_label env pr] <:+: run env w := by
  have hne : w.pulls ≠ [] := by
    intro h
    rw [h] at hpr
    simp at hpr
  have hlen : ¬ (w.pulls.length = 0) := by
    simpa [List.length_eq_zero] using hne
  have h1 : [update_comment env c (generate_section env (find_failed_check_runs w)),
      add_label env pr] <:+:
      process_pr env w (find_failed_check_runs w)
        (generate_section env (find_failed_check_runs w)) pr := by
    unfold process_pr
    rw [hfound]
    exact (List.suffix_cons _ _).isInfix
  have h2 := process_pr_infix_run_loop env w (find_failed_check_runs w)
    (generate_section env (find_failed_check_runs w)) w.pulls pr hpr
  unfold run
  rw [hgate, if_pos rfl, if_neg hlen]
  exact List.infix_cons (List.infix_cons (h1.trans h2))

/-- C4 (witness): a concrete pull request with a signed comment and zero
failed check runs — the update and the label still appear in the trace. -/
theorem C4_witness :
    (find_failed_check_runs w0 = [] ∧ find_comment env0 w0 { number := 1 } =
      some comment0) ∧
    [update_comment env0 comment0 (generate_section env0 (find_failed_check_runs w0)),
      add_label env0 { number := 1 }] <:+: run env0 w0 :=
  ⟨⟨by decide, by decide⟩,
    C4_update_then_label env0 w0 { number := 1 } comment0 (by decide) (by decide)
      (by decide)⟩

/-- `find?` returns the head of the first matching suffix. -/
lemma find?_first_match {α : Type} (p : α → Bool) :
    ∀ (l1 : List α) (c : α) (l2 : List α),
      (∀ e ∈ l1, p e = false) → p c = true →
      List.find? p (l1 ++ c :: l2) = some c := by
  intro l1
  induction l1 with
  | nil =>
    intro c l2 _ hc
    rw [List.nil_append]
    exact List.find?_cons_of_pos _ hc
  | cons e t ih =>
    intro c l2 h1 hc
    rw [List.cons_append,
      List.find?_cons_of_neg _ (by simp [h1 e (by simp)])]
    exact ih c l2 (fun x hx => h1 x (List.mem_cons_of_mem e hx)) hc

/-- C9: when several comments contain the Signature, `find_comment`
returns the first one in listing order; a later duplicate (here `d`) is
ignored. -/
theorem C9_first_signed_comment (env : Env) (w : World) (pr : PullRequest)
    (l1 l2 : List IssueComment) (c d : IssueComment)
    (hlist : w.comments pr.number = l1 ++ c :: l2)
    (hl1 : ∀ e ∈ l1, comment_matches env e = false)
    (hc : comment_matches env c = true)
    (hd : d ∈ l2) (hdm : comment_matches env d = true) :
    find_comment env w pr = some c := by
  unfold find_comment
  rw [hlist]
  exact find?_first_match (comment_matches env) l1 c l2 hl1 hc

/-- An unmatched comment (body `undefined`). -/
def commentNone : IssueComment := { id := 7, body := none }

/-- Two distinct comments both carrying `env0`'s signature. -/
def commentSig1 : IssueComment := { id := 8, body := some (signature env0) }

def commentSig2 : IssueComment := { id := 9, body := some (signature env0) }

/-- A world whose pull request 1 has a body-less comment followed by two
signed comments. -/
def w9 : World :=
  { pulls := [{ number := 1 }], check_runs := [],
    comments := fun _ => [commentNone, commentSig1, commentSig2] }

/-- C9 (witness): with two signed comments in the listing, the first one
is selected. -/
theorem C9_witness :
    (comment_matches env0 commentSig1 = true ∧
      comment_matches env0 commentSig2 = true) ∧
    find_comment env0 w9 { number := 1 } = some commentSig1 :=
  ⟨⟨by decide, by decide⟩,
    C9_first_signed_comment env0 w9 { number := 1 } [commentNone] [commentSig2]
      commentSig1 commentSig2 rfl (by decide) (by decide) (by decide) (by decide)⟩

/-- Filtering by a predicate implied by the search predicate does not
change the result of `find?`. -/
lemma find?_filter_of_imp {α : Type} (p q : α → Bool)
    (himp : ∀ x, p x = true → q x = true) :
    ∀ l : List α, List.find? p l = List.find? p (l.filter q) := by
  intro l
  induction l with
  | nil => rfl
  | cons a t ih =>
    rw [List.filter_cons]
    by_cases hq : q a = true
    · rw [if_pos hq]
      by_cases hp : p a = true
      · rw [List.find?_cons_of_pos _ hp, List.find?_cons_of_pos _ hp]
      · have hp' : p a = false := by
          cases hpa : p a
          · rfl
          · exact absurd hpa hp
        rw [List.find?_cons_of_neg _ (by simp [hp']),
          List.find?_cons_of_neg _ (by simp [hp'])]
        exact ih
    · have hq' : q a = false := by
        cases hqa : q a
        · rfl
        · exact absurd hqa hq
      rw [if_neg (by simp [hq'])]
      have hp' : p a = false := by
        cases hpa : p a
        · rfl
        · exact absurd (himp a hpa) hq
      rw [List.find?_cons_of_neg _ (by simp [hp'])]
      exact ih

/-- C10: comments with an `undefined` body are skipped — one is never
selected as the managed comment, and deleting all of them from the
listing does not change `find_comment`'s result (the guard
`c.body !== undefined` makes the containment test total). -/
theorem C10_undefined_bodies_skipped (env : Env) (w : World) (pr : PullRequest) :
    (∀ c, find_comment env w pr = some c → c.body ≠ none) ∧
    find_comment env w pr =
      ((w.comments pr.number).filter (fun c => c.body.isSome)).find?
        (comment_matches env) := by
  constructor
  · intro c hc hbody
    have hp := List.find?_some hc
    unfold comment_matches at hp
    rw [hbody] at hp
    simp at hp
  · unfold find_comment
    refine find?_filter_of_imp _ _ ?_ _
    intro c hc
    unfold comment_matches at hc
    cases hb : c.body with
    | none => rw [hb] at hc; simp at hc
    | some b => simp [hb]

/-- C10 (witness): in a listing starting with a body-less comment, the
selected comment has a defined body. -/
theorem C10_witness :
    (find_comment env0 w9 { number := 1 } = some commentSig1 ∧
      commentSig1.body ≠ none) ∧
    find_comment env0 w9 { number := 1 } =
      ((w9.comments 1).filter (fun c => c.body.isSome)).find?
        (comment_matches env0) :=
  ⟨⟨by decide,
      (C10_undefined_bodies_skipped env0 w9 { number := 1 }).1 commentSig1
        (by decide)⟩,
    (C10_undefined_bodies_skipped env0 w9 { number := 1 }).2⟩

/-- Joining with a separator equals head plus separator-prefixed tail
blocks. -/
lemma joinWith_eq_flatten (sep : List Char) :
    ∀ (l : List (List Char)) (a : List Char),
      joinWith sep (a :: l) = a ++ (l.map (fun s => sep ++ s)).flatten := by
  intro l
  induction l with
  | nil => intro a; simp [joinWith]
  | cons b t ih =>
    intro a
    rw [joinWith_cons_cons, ih b]
    simp [List.append_assoc]

/-- The spec's persisted grammar `Signature (separator Section)*`, stated
in its own words for comparison with the code's `generate_body`. -/
def spec_body_grammar (env : Env) (b : List Char) : Prop :=
  ∃ ss : List (List Char),
    b = signature env ++ (ss.map (fun s => sepL ++ s)).flatten

/-- Every body produced by `generate_body` matches the spec's grammar. -/
lemma generate_body_grammar (env : Env) (ss : List (List Char)) :
    spec_body_grammar env (generate_body env ss) := by
  refine ⟨ss, ?_⟩
  unfold generate_body
  rw [List.singleton_append, joinWith_eq_flatten]

/-- Bodies written by the per-PR handler all come from `generate_body`. -/
lemma process_pr_body_grammar (env : Env) (w : World) (failed_runs : List CheckRun)
    (sectionText : List Char) (pr : PullRequest) (call : RemoteCall)
    (hc : call ∈ process_pr env w failed_runs sectionText pr)
    (b : List Char) (hb : callBody call = some b) :
    spec_body_grammar env b := by
  unfold process_pr at hc
  rcases List.mem_cons.mp hc with rfl | hc
  · simp [callBody] at hb
  · cases hfc : find_comment env w pr with
    | some comment =>
      rw [hfc] at hc
      rcases List.mem_cons.mp hc with rfl | hc
      · unfold update_comment at hb
        unfold callBody at hb
        rw [Option.some_inj] at hb
        exact hb ▸ generate_body_grammar env _
      · rw [List.mem_singleton] at hc
        subst hc
        simp [add_label, callBody] at hb
    | none =>
      rw [hfc] at hc
      by_cases h0 : 0 < failed_runs.length
      · rw [if_pos h0] at hc
        rcases List.mem_cons.mp hc with rfl | hc
        · unfold create_comment at hb
          unfold callBody at hb
          rw [Option.some_inj] at hb
          exact hb ▸ generate_body_grammar env _
        · rw [List.mem_singleton] at hc
          subst hc
          simp [add_label, callBody] at hb
      · rw [if_neg h0] at hc
        simp at hc

/-- Bodies written anywhere in the loop all come from `generate_body`. -/
lemma run_loop_body_grammar (env : Env) (w : World) (failed_runs : List CheckRun)
    (sectionText : List Char) :
    ∀ (prs : List PullRequest) (call : RemoteCall),
      call ∈ run_loop env w failed_runs sectionText prs →
      ∀ b, callBody call = some b → spec_body_grammar env b := by
  intro prs
  induction prs with
  | nil => intro call hc; simp [run_loop] at hc
  | cons q rest ih =>
    intro call hc b hb
    rw [show run_loop env w failed_runs sectionText (q :: rest) =
        process_pr env w failed_runs sectionText q ++
          run_loop env w failed_runs sectionText rest from rfl,
      List.mem_append] at hc
    rcases hc with hc | hc
    · exact process_pr_body_grammar env w failed_runs sectionText q call hc b hb
    · exact ih call hc b hb

/-- C8: every comment body the program writes (in an update or create
call of `run`'s trace) matches the persisted grammar
`Signature (separator Section)*`, and every section `generate_section`
produces begins with the `<!-- WORKFLOW:<identity> -->` tag line. -/
theorem C8_persisted_grammar (env : Env) (w : World) :
    (∀ call ∈ run env w, ∀ b, callBody call = some b →
      spec_body_grammar env b) ∧
    (∀ failed_runs : List CheckRun,
      (tag env ++ str "\n") <+: generate_section env failed_runs) := by
  constructor
  · intro call hc b hb
    unfold run at hc
    by_cases hgate : is_pull_request env = true
    · rw [hgate, if_pos rfl] at hc
      rcases List.mem_cons.mp hc with rfl | hc
      · simp [callBody] at hb
      · by_cases hlen : w.pulls.length = 0
        · rw [if_pos hlen] at hc
          simp at hc
        · rw [if_neg hlen] at hc
          rcases List.mem_cons.mp hc with rfl | hc
          · simp [callBody] at hb
          · exact run_loop_body_grammar env w _ _ w.pulls call hc b hb
    · rw [if_neg (by simpa using hgate)] at hc
      simp at hc
  · intro failed_runs
    show (tag env ++ str "\n") <+:
      joinWith (str "\n") (tag env :: (str "### " ++ env.workflow) :: _)
    rw [joinWith_cons_cons]
    exact List.prefix_append _ _

/-- C8 (witness): the updated body at the concrete world `w0` matches the
grammar, and the all-clear section starts with the tag line. -/
theorem C8_witness :
    (update_comment env0 comment0
        (generate_section env0 (find_failed_check_runs w0)) ∈ run env0 w0) ∧
    spec_body_grammar env0
      (generate_body env0
        (replace_or_append_section env0
          (generate_section env0 (find_failed_check_runs w0))
          (split_body env0 (signature env0)))) ∧
    (tag env0 ++ str "\n") <+: generate_section env0 [] :=
  ⟨by decide,
    (C8_persisted_grammar env0 w0).1
      (update_comment env0 comment0
        (generate_section env0 (find_failed_check_runs w0)))
      (by decide)
      (generate_body env0
        (replace_or_append_section env0
          (generate_section env0 (find_failed_check_runs w0))
          (split_body env0 (signature env0))))
      rfl,
    (C8_persisted_grammar env0 w0).2 []⟩
